import Mathlib

/-!
Shallow embedding of the image-sandbox orchestration layer
(docker_cli / wigwam packages) and proofs about its specification.

Python strings are modelled as Lean `String`, Python lists as `List`,
Python dicts as insertion-ordered association lists `List (String × String)`,
exceptions as `Except`, and the filesystem / container backend as an
explicit `World` state threaded through the functions.
-/

/-- Python `str.startswith`: the pattern is a prefix of the string. -/
def strStartsWith (s p : String) : Bool := p.toList.isPrefixOf s.toList

/-- Python `str.endswith`: the pattern is a suffix of the string. -/
def strEndsWith (s p : String) : Bool := p.toList.isSuffixOf s.toList

theorem strStartsWith_append (pfx rest : String) :
    strStartsWith (pfx ++ rest) pfx = true := by
  unfold strStartsWith
  rw [List.isPrefixOf_iff_prefix]
  have h : (pfx ++ rest).toList = pfx.toList ++ rest.toList := by
    simp [String.toList]
  rw [h]
  exact List.prefix_append _ _

/-!
## Tag resolution (docker_cli/commands.py)

Every build command resolves its tag argument with
`img_tag = tag if tag.startswith(prefix) else f"{prefix}-{tag}"`,
where `prefix` comes from `universal_tag_prefix()` (defined in the
`_utils` module, whose value is treated as an arbitrary parameter `pfx`
here, since nothing in the resolution logic depends on it).
-/

/-- docker_cli/commands.py lines 67-68 (and identically at lines 104-105,
168-169, 193-194, 230-231): prefix resolution of an image tag. -/
def resolve_tag (pfx tag : String) : String :=
  if strStartsWith tag pfx then tag else pfx ++ "-" ++ tag

theorem resolve_tag_startsWith (pfx tag : String) :
    strStartsWith (resolve_tag pfx tag) pfx = true := by
  unfold resolve_tag
  by_cases h : strStartsWith tag pfx
  · simp [h]
  · simp [h]
    have e : pfx ++ "-" ++ tag = pfx ++ ("-" ++ tag) := by
      rw [String.append_assoc]
    rw [e]
    exact strStartsWith_append pfx ("-" ++ tag)

/-- Claim C8: tag-prefix resolution is idempotent, pure and total:
`resolve(resolve(t)) = resolve(t)` for every prefix and every tag;
`resolve` returns `t` unchanged when `t` already starts with the prefix
and `"<prefix>-<t>"` otherwise, with no failure mode. -/
theorem resolve_tag_idempotent (pfx tag : String) :
    resolve_tag pfx (resolve_tag pfx tag) = resolve_tag pfx tag := by
  have h := resolve_tag_startsWith pfx tag
  have e : resolve_tag pfx (resolve_tag pfx tag)
      = if strStartsWith (resolve_tag pfx tag) pfx then resolve_tag pfx tag
        else pfx ++ "-" ++ resolve_tag pfx tag := rfl
  rw [e, h]
  simp

/-!
## Workflow command templates (docker_cli/_workflows.py lines 20-87)
-/

/-- The `Workflow` class hierarchy of docker_cli/_workflows.py: each
constructor is one of the concrete subclasses, carrying its `module`. -/
inductive Workflow where
  | genericSAS (module : String)
  | insar (module : String)
  | textRunconfig (module : String)
  | soilMoisture (module : String)
deriving DecidableEq

/-- The `get_command` methods of the workflow classes
(docker_cli/_workflows.py lines 34-56). -/
def Workflow.get_command : Workflow → String → String
  | .genericSAS m, rc => "python -m nisar.workflows." ++ m ++ " " ++ rc
  | .insar m, rc => "python -m nisar.workflows." ++ m ++ " " ++ rc ++ " -- restart"
  | .textRunconfig m, rc => "python -m nisar.workflows." ++ m ++ " @" ++ rc
  | .soilMoisture _, rc => "micromamba run -n SoilMoisture NISAR_SM_SAS " ++ rc

/-- docker_cli/_workflows.py lines 59-87: `get_workflow_object`,
the workflow-name dispatch (an `if`/`elif` chain, embedded in order). -/
def get_workflow_object (workflow_name : String) : Except String Workflow :=
  if workflow_name = "gslc" ∨ workflow_name = "gcov" ∨ workflow_name = "insar" then
    .ok (.genericSAS workflow_name)
  else if workflow_name = "rslc" then
    .ok (.genericSAS "focus")
  else if workflow_name = "insar" then
    .ok (.insar workflow_name)
  else if workflow_name = "el_edge" ∨ workflow_name = "el_null" then
    .ok (.textRunconfig workflow_name)
  else
    .error ("Workflow " ++ workflow_name ++ " not recognized")

/-- Helper: whether a dispatch result is the `InSARWorkflow` subclass. -/
def isInsarResult : Except String Workflow → Bool
  | .ok (.insar _) => true
  | _ => false

/-- Claim C3 (refuted by the code): `get_workflow_object "insar"` takes the
first branch and returns the plain `GenericSASWorkflow`, so the resolved
command for the "insar" workflow does not end with the restart suffix;
moreover the `InSARWorkflow` branch of the dispatch is unreachable for
every workflow name (dead code). -/
theorem insar_command_lacks_restart :
    get_workflow_object "insar" = .ok (.genericSAS "insar")
    ∧ Workflow.get_command (.genericSAS "insar") "runconfig.yaml"
        = "python -m nisar.workflows.insar runconfig.yaml"
    ∧ strEndsWith (Workflow.get_command (.genericSAS "insar") "runconfig.yaml")
        " -- restart" = false
    ∧ ∀ name : String, isInsarResult (get_workflow_object name) = false := by
  refine ⟨rfl, rfl, by decide, ?_⟩
  intro name
  unfold get_workflow_object
  by_cases h1 : name = "gslc" ∨ name = "gcov" ∨ name = "insar"
  · rw [if_pos h1]; rfl
  · rw [if_neg h1]
    by_cases h2 : name = "rslc"
    · rw [if_pos h2]; rfl
    · rw [if_neg h2]
      have h3 : ¬(name = "insar") := fun h => h1 (Or.inr (Or.inr h))
      rw [if_neg h3]
      by_cases h4 : name = "el_edge" ∨ name = "el_null"
      · rw [if_pos h4]; rfl
      · rw [if_neg h4]; rfl

/-!
## Catalog search (docker_cli/_search.py and wigwam/_search.py)

Name patterns go through Python `re.match(fnmatch.translate(name), item_name)`:
an anchored (full-string) glob match.  `globMatch` implements the glob
dialect over character lists: `*` matches any sequence, `?` any single
character, and any other character matches itself.  (The `[...]` character
classes of `fnmatch` are not modelled; no search term in this development
uses them.)
-/

/-- Anchored glob matching: `globMatch pattern text`.  A `*` consumes any
(possibly empty) sequence, expressed as a match of the rest of the pattern
against any tail of the text. -/
def globMatch : List Char → List Char → Bool
  | [], s => s.isEmpty
  | '*' :: ps, s => s.tails.any (fun t => globMatch ps t)
  | '?' :: ps, s =>
    match s with
    | [] => false
    | _ :: s1 => globMatch ps s1
  | p :: ps, s =>
    match s with
    | [] => false
    | c :: s1 => (p = c) && globMatch ps s1

/-- A catalog item (`workflowdata.json` entry): name, tags, url and the
file-to-hash map. Only `name` and `tags` take part in search acceptance. -/
structure CatalogItem where
  name : String
  tags : List String
  url : String
  files : List (String × String)
deriving DecidableEq

/-- docker_cli/_search.py lines 128-164: `_accept_item`.  The `for name in
names` loop returns unconditionally on its first iteration (`return True if
match_object is not None else False`), so a non-empty `names` list decides
acceptance by its first glob alone and the tag check is never reached. -/
def accept_item_dc (item : CatalogItem) (tags : List (List String))
    (names : List String) : Bool :=
  match names with
  | name :: _ => globMatch name.toList item.name.toList
  | [] => tags.any (fun tag_list => tag_list.all (fun t => item.tags.contains t))

/-- wigwam/_search.py lines 138-180: `_accept_item`.  The name loop only
returns on a successful match, then the tag-set check runs. -/
def accept_item_ww (item : CatalogItem) (tags : List (List String))
    (names : List String) : Bool :=
  names.any (fun name => globMatch name.toList item.name.toList)
  || tags.any (fun tag_list => tag_list.all (fun t => item.tags.contains t))

/-- Modelled from the spec (section 4.3): an item is accepted if its name
matches any glob in `names` or its tag set is a superset of any single
tag-set in `tags` (inner sets are AND conditions, the outer list an OR). -/
def spec_accept_item (item : CatalogItem) (tags : List (List String))
    (names : List String) : Bool :=
  names.any (fun name => globMatch name.toList item.name.toList)
  || tags.any (fun tag_list => tag_list.all (fun t => item.tags.contains t))

/-- docker_cli/_search.py lines 87-125: `search_file` filters the catalog
data list (file loading elided; the parsed catalog is the argument). -/
def search_file_dc (data : List CatalogItem) (tags : List (List String))
    (names : List String) : List CatalogItem :=
  data.filter (fun x => accept_item_dc x tags names)

/-- wigwam/_search.py lines 87-135: `search_file` returns the whole data
list when `all` is set, else filters with `_accept_item`. -/
def search_file_ww (data : List CatalogItem) (tags : List (List String))
    (names : List String) (all : Bool) : List CatalogItem :=
  if all then data else data.filter (fun x => accept_item_ww x tags names)

/-- The spec's example catalog item: `{"name": "x", "tags": ["a", "b"]}`. -/
def exampleItem : CatalogItem := ⟨"x", ["a", "b"], "", []⟩

/-- Claim C2 (refuted by docker_cli, satisfied by wigwam): on the catalog
`[{"name": "x", "tags": ["a", "b"]}]` queried with `tags = [["a", "b"]]` and
`names = ["y"]`, the docker_cli `_accept_item` rejects the item — its tag
check is unreachable once `names` is non-empty — while the wigwam version
accepts it; the wigwam version agrees with the spec's accept predicate on
every item and query, and the docker_cli version disagrees with it exactly
when the first glob fails but a later glob or a tag set would accept. -/
theorem accept_item_tag_query_divergence :
    accept_item_dc exampleItem [["a", "b"]] ["y"] = false
    ∧ spec_accept_item exampleItem [["a", "b"]] ["y"] = true
    ∧ accept_item_ww exampleItem [["a", "b"]] ["y"] = true
    ∧ search_file_dc [exampleItem] [["a", "b"]] ["y"] = []
    ∧ search_file_ww [exampleItem] [["a", "b"]] ["y"] false = [exampleItem]
    ∧ accept_item_dc exampleItem [] ["z", "x"] = false
    ∧ spec_accept_item exampleItem [] ["z", "x"] = true
    ∧ (∀ (item : CatalogItem) (tags : List (List String)) (names : List String),
        accept_item_ww item tags names = spec_accept_item item tags names) := by
  refine ⟨by decide, by decide, by decide, by decide, by decide, by decide, by decide, ?_⟩
  intro item tags names
  rfl

/-!
## Input resolution (docker_cli/_input_finder.py)

The filesystem is abstracted by an `isdir : String → Bool` oracle; Python
dicts become insertion-ordered association lists whose keys are unique.
-/

/-- Python `os.path.join` for the relative second components used here. -/
def os_path_join (a b : String) : String :=
  if strEndsWith a "/" then a ++ b else a ++ "/" ++ b

/-- _input_finder.py lines 197-218: `_in_cache` — the repository name exists
as a first-level subdirectory of the cache directory. -/
def in_cache (isdir : String → Bool) (cache_dir repo_name : String) : Bool :=
  isdir (os_path_join cache_dir repo_name)

/-- _input_finder.py lines 122-127: the `filter(_in_labels, keys)` pass.
`_in_labels` (lines 167-194) raises on the first unknown label, so the
filter either fails or accepts every key. -/
def validate_labels (label_repo_dict : List (String × String)) :
    List String → Except String Unit
  | [] => .ok ()
  | label :: rest =>
    if (label_repo_dict.lookup label).isSome then
      validate_labels label_repo_dict rest
    else .error ("Label " ++ label ++ " was not expected.")

/-- _input_finder.py lines 129-137: the loop over accepted labels, moving
each referenced repository from the unmatched list into the output mapping
and consuming the supplied path. -/
def assign_labels (label_repo_dict : List (String × String)) :
    List (String × String) → List String → List String →
    List (String × String) →
    Except String (List (String × String) × List String × List String)
  | [], unmatched_paths, unmatched, acc => .ok (acc, unmatched_paths, unmatched)
  | (label, path) :: rest, unmatched_paths, unmatched, acc =>
    match label_repo_dict.lookup label with
    | none => .error ("Label " ++ label ++ " was not expected.")
    | some repo =>
      if unmatched.contains repo then
        assign_labels label_repo_dict rest (unmatched_paths.erase path)
          (unmatched.erase repo) (acc ++ [(repo, path)])
      else .error ("Repository " ++ repo ++ " referenced twice.")

/-- _input_finder.py lines 145-156: the scan over cache directories.  Each
directory contributes its `found_repos`; found repositories are removed
from the unmatched list and mapped to `f"{cache_dir}/{repo}"`; the scan
breaks off early once no repository remains unmatched. -/
def cache_scan (isdir : String → Bool) :
    List String → List String → List (String × String) →
    List (String × String) × List String
  | [], unmatched, acc => (acc, unmatched)
  | cache_dir :: rest, unmatched, acc =>
    let found := unmatched.filter (fun repo => in_cache isdir cache_dir repo)
    let acc1 := acc ++ found.map (fun repo => (repo, cache_dir ++ "/" ++ repo))
    let unmatched1 := found.foldl (fun u repo => u.erase repo) unmatched
    if unmatched1.length = 0 then (acc1, unmatched1)
    else cache_scan isdir rest unmatched1 acc1

/-- _input_finder.py lines 158-164: the final check, failing with an error
naming every repository still unmatched after the cache scan. -/
def finish_cache (isdir : String → Bool) (cache_dirs : List String)
    (unmatched : List String) (acc : List (String × String)) :
    Except String (List (String × String)) :=
  let r := cache_scan isdir cache_dirs unmatched acc
  if r.2.length > 0 then
    .error ("Required repositories not found in supplied locations: "
      ++ String.intercalate ", " r.2)
  else .ok r.1

/-- _input_finder.py lines 70-164: `search_for_inputs`.  `input_dirs` is
either a single unlabeled path (`.inl`), a label-to-path dict (`.inr`) or
absent. -/
def search_for_inputs (required_repositories : List String)
    (label_repo_dict : List (String × String)) (cache_dirs : List String)
    (isdir : String → Bool)
    (input_dirs : Option (String ⊕ List (String × String))) :
    Except String (List (String × String)) :=
  match input_dirs with
  | some (.inl path) =>
    match required_repositories with
    | [r] => .ok [(r, path)]
    | _ => .error
        "Unlabeled input directories only allowed for tests with only one input."
  | some (.inr dirs) =>
    match validate_labels label_repo_dict (dirs.map Prod.fst) with
    | .error e => .error e
    | .ok _ =>
      match assign_labels label_repo_dict dirs (dirs.map Prod.snd)
          required_repositories [] with
      | .error e => .error e
      | .ok (acc, unmatched_paths, unmatched) =>
        if unmatched_paths.length > 0 then
          .error
            "Supplied input directory was not matched to a label or repository name."
        else finish_cache isdir cache_dirs unmatched acc
  | none => finish_cache isdir cache_dirs required_repositories []

/-- Claim C5: a single unlabeled path maps directly to the sole required
repository — the cache directories and the label table are never consulted —
and with two or more required repositories the same unlabeled path fails
with the ambiguous-input error and no mapping is returned. -/
theorem unlabeled_path_resolution (r path : String)
    (lrd : List (String × String)) (cds : List String)
    (isdir : String → Bool) :
    search_for_inputs [r] lrd cds isdir (some (.inl path)) = .ok [(r, path)]
    ∧ ∀ (r1 r2 : String) (rest : List String),
      search_for_inputs (r1 :: r2 :: rest) lrd cds isdir (some (.inl path))
        = .error
          "Unlabeled input directories only allowed for tests with only one input." := by
  exact ⟨rfl, fun r1 r2 rest => rfl⟩

/-!
## Helper lemmas about association lists and erasure
-/

theorem lookup_append_left {l1 l2 : List (String × String)} {k : String}
    {v : String} (h : l1.lookup k = some v) :
    (l1 ++ l2).lookup k = some v := by
  induction l1 with
  | nil => simp [List.lookup] at h
  | cons a l ih =>
    rw [List.cons_append]
    rw [List.lookup] at h ⊢
    by_cases hk : k = a.1
    · simp [hk] at h ⊢; exact h
    · have hb : (k == a.1) = false := beq_false_of_ne hk
      rw [hb] at h ⊢
      exact ih h

theorem lookup_append_none {l1 l2 : List (String × String)} {k : String}
    (h : l1.lookup k = none) :
    (l1 ++ l2).lookup k = l2.lookup k := by
  induction l1 with
  | nil => simp
  | cons a l ih =>
    rw [List.cons_append]
    rw [List.lookup] at h ⊢
    by_cases hk : k = a.1
    · simp [hk] at h
    · have hb : (k == a.1) = false := beq_false_of_ne hk
      rw [hb] at h ⊢
      exact ih h

theorem lookup_map_self {l : List String} {f : String → String} {r : String}
    (h : r ∈ l) :
    ((l.map (fun x => (x, f x))).lookup r) = some (f r) := by
  induction l with
  | nil => simp at h
  | cons a l ih =>
    rw [List.map_cons, List.lookup]
    by_cases hk : r = a
    · subst hk; simp
    · have hb : (r == a) = false := beq_false_of_ne hk
      simp only [hb]
      exact ih ((List.mem_cons.mp h).resolve_left hk)

theorem lookup_map_self_none {l : List String} {f : String → String}
    {r : String} (h : r ∉ l) :
    ((l.map (fun x => (x, f x))).lookup r) = none := by
  induction l with
  | nil => simp
  | cons a l ih =>
    rw [List.map_cons, List.lookup]
    have hk : ¬(r = a) := fun he => h (he ▸ List.mem_cons_self a l)
    have hb : (r == a) = false := beq_false_of_ne hk
    simp only [hb]
    exact ih (fun hm => h (List.mem_cons_of_mem a hm))

theorem foldl_erase_cons {p : String → Bool} (L : List String)
    (x : String) (xs : List String) (hx : p x = false)
    (hL : ∀ y ∈ L, p y = true) :
    L.foldl (fun l z => l.erase z) (x :: xs)
      = x :: L.foldl (fun l z => l.erase z) xs := by
  induction L generalizing xs with
  | nil => rfl
  | cons y L ih =>
    have hy : p y = true := hL y (List.mem_cons_self y L)
    have hxy : ¬(x = y) := fun he => by rw [he, hy] at hx; exact Bool.noConfusion hx
    rw [List.foldl_cons, List.foldl_cons,
      List.erase_cons_tail (by simp [hxy])]
    exact ih (xs.erase y) (fun z hz => hL z (List.mem_cons_of_mem y hz))

theorem foldl_erase_filter (u : List String) (p : String → Bool) :
    (u.filter p).foldl (fun l x => l.erase x) u
      = u.filter (fun x => !(p x)) := by
  induction u with
  | nil => rfl
  | cons x xs ih =>
    by_cases hx : p x = true
    · rw [List.filter_cons_of_pos hx, List.foldl_cons, List.erase_cons_head]
      have e2 : (x :: xs).filter (fun y => !(p y)) = xs.filter (fun y => !(p y)) := by
        rw [List.filter_cons_of_neg]
        simp [hx]
      rw [e2, ← ih]
    · have hx2 : p x = false := Bool.eq_false_iff.mpr hx
      rw [List.filter_cons_of_neg (by simp [hx2]),
        foldl_erase_cons (xs.filter p) x xs hx2
          (fun y hy => (List.mem_filter.mp hy).2),
        List.filter_cons_of_pos (by simp [hx2]), ih]

/-!
## Properties of the cache-directory scan
-/

theorem cache_scan_nil (isdir : String → Bool) (dirs : List String)
    (acc : List (String × String)) :
    cache_scan isdir dirs [] acc = (acc, []) := by
  cases dirs with
  | nil => rfl
  | cons cd rest => simp [cache_scan]

theorem cache_scan_unmatched (isdir : String → Bool) (dirs : List String) :
    ∀ (u : List String) (acc : List (String × String)),
    (cache_scan isdir dirs u acc).2
      = u.filter (fun r => !(dirs.any (fun cd => in_cache isdir cd r))) := by
  induction dirs with
  | nil => intro u acc; simp [cache_scan]
  | cons cd rest ih =>
    intro u acc
    simp only [cache_scan]
    rw [foldl_erase_filter]
    by_cases hfin :
        (u.filter (fun x => !(in_cache isdir cd x))).length = 0
    · rw [if_pos hfin]
      have hnil : u.filter (fun x => !(in_cache isdir cd x)) = [] :=
        List.length_eq_zero.mp hfin
      have hall : ∀ a ∈ u, in_cache isdir cd a = true := by
        intro a ha
        have := List.filter_eq_nil_iff.mp hnil a ha
        simpa using this
      simp only [hnil]
      symm
      apply List.filter_eq_nil_iff.mpr
      intro a ha
      simp [List.any_cons, hall a ha]
    · rw [if_neg hfin, ih]
      rw [List.filter_filter]
      apply List.filter_congr
      intro a _
      simp [List.any_cons, Bool.not_or, Bool.and_comm]

theorem cache_scan_append_of_done (isdir : String → Bool)
    (dirs1 dirs2 : List String) :
    ∀ (u : List String) (acc : List (String × String)),
    (cache_scan isdir dirs1 u acc).2 = [] →
    cache_scan isdir (dirs1 ++ dirs2) u acc = cache_scan isdir dirs1 u acc := by
  induction dirs1 with
  | nil =>
    intro u acc h
    have hu : u = [] := h
    subst hu
    rw [List.nil_append, cache_scan_nil]
    rfl
  | cons cd rest ih =>
    intro u acc h
    simp only [cache_scan] at h ⊢
    by_cases hfin :
        ((u.filter (fun repo => in_cache isdir cd repo)).foldl
          (fun u1 repo => u1.erase repo) u).length = 0
    · rw [if_pos hfin] at h ⊢
      rw [if_pos hfin]
    · rw [if_neg hfin] at h ⊢
      rw [if_neg hfin]
      exact ih _ _ h

theorem cache_scan_lookup_mono (isdir : String → Bool) (dirs : List String) :
    ∀ (u : List String) (acc : List (String × String)) (k v : String),
    acc.lookup k = some v →
    ((cache_scan isdir dirs u acc).1).lookup k = some v := by
  induction dirs with
  | nil => intro u acc k v h; exact h
  | cons cd rest ih =>
    intro u acc k v h
    simp only [cache_scan]
    by_cases hfin :
        ((u.filter (fun repo => in_cache isdir cd repo)).foldl
          (fun u1 repo => u1.erase repo) u).length = 0
    · rw [if_pos hfin]
      exact lookup_append_left h
    · rw [if_neg hfin]
      exact ih _ _ _ _ (lookup_append_left h)

theorem cache_scan_first_lookup (isdir : String → Bool) (dirs : List String) :
    ∀ (u : List String) (acc : List (String × String)) (r cd : String),
    r ∈ u → acc.lookup r = none →
    List.find? (fun c => in_cache isdir c r) dirs = some cd →
    ((cache_scan isdir dirs u acc).1).lookup r = some (cd ++ "/" ++ r) := by
  induction dirs with
  | nil => intro u acc r cd _ _ hf; simp at hf
  | cons cd0 rest ih =>
    intro u acc r cd hr hacc hf
    simp only [cache_scan]
    rw [foldl_erase_filter]
    by_cases hp : in_cache isdir cd0 r = true
    · rw [List.find?_cons] at hf
      simp only [hp, if_true] at hf
      have hcd : cd0 = cd := Option.some.inj hf
      subst hcd
      have hmem : r ∈ u.filter (fun repo => in_cache isdir cd0 repo) :=
        List.mem_filter.mpr ⟨hr, hp⟩
      have hacc1 :
          ((acc ++ (u.filter (fun repo => in_cache isdir cd0 repo)).map
            (fun repo => (repo, cd0 ++ "/" ++ repo))).lookup r)
            = some (cd0 ++ "/" ++ r) := by
        rw [lookup_append_none hacc]
        exact lookup_map_self hmem
      by_cases hfin : (u.filter (fun x => !(in_cache isdir cd0 x))).length = 0
      · rw [if_pos hfin]
        exact hacc1
      · rw [if_neg hfin]
        exact cache_scan_lookup_mono isdir rest _ _ _ _ hacc1
    · have hp2 : in_cache isdir cd0 r = false := Bool.eq_false_iff.mpr hp
      rw [List.find?_cons] at hf
      simp only [hp2, Bool.false_eq_true, if_false] at hf
      have hrm : r ∈ u.filter (fun x => !(in_cache isdir cd0 x)) :=
        List.mem_filter.mpr ⟨hr, by simp [hp2]⟩
      have hfin : ¬((u.filter (fun x => !(in_cache isdir cd0 x))).length = 0) := by
        intro h0
        rw [List.length_eq_zero.mp h0] at hrm
        simp at hrm
      rw [if_neg hfin]
      apply ih _ _ _ _ hrm _ hf
      rw [lookup_append_none hacc]
      apply lookup_map_self_none
      intro hmem
      rw [(List.mem_filter.mp hmem).2] at hp2
      exact Bool.noConfusion hp2

theorem cache_scan_mem_keys (isdir : String → Bool) (dirs : List String) :
    ∀ (u : List String) (acc : List (String × String)) (x : String),
    (x ∈ ((cache_scan isdir dirs u acc).1).map Prod.fst
      ∨ x ∈ (cache_scan isdir dirs u acc).2)
    ↔ (x ∈ acc.map Prod.fst ∨ x ∈ u) := by
  induction dirs with
  | nil => intro u acc x; simp [cache_scan]
  | cons cd rest ih =>
    intro u acc x
    simp only [cache_scan]
    rw [foldl_erase_filter]
    have hsplit : ∀ (l1 : List (String × String)),
        (acc ++ l1).map Prod.fst = acc.map Prod.fst ++ l1.map Prod.fst :=
      fun l1 => List.map_append Prod.fst acc l1
    by_cases hfin : (u.filter (fun x1 => !(in_cache isdir cd x1))).length = 0
    · rw [if_pos hfin]
      have hnil : u.filter (fun x1 => !(in_cache isdir cd x1)) = [] :=
        List.length_eq_zero.mp hfin
      have hall : ∀ a ∈ u, in_cache isdir cd a = true := by
        intro a ha
        have := List.filter_eq_nil_iff.mp hnil a ha
        simpa using this
      simp only [hsplit, hnil, List.map_map]
      constructor
      · intro h
        rcases h with h | h
        · rcases List.mem_append.mp h with h1 | h1
          · exact Or.inl h1
          · rcases List.mem_map.mp h1 with ⟨a, ha, he⟩
            exact Or.inr (he ▸ (List.mem_filter.mp ha).1)
        · simp at h
      · intro h
        rcases h with h | h
        · exact Or.inl (List.mem_append.mpr (Or.inl h))
        · refine Or.inl (List.mem_append.mpr (Or.inr ?_))
          apply List.mem_map.mpr
          refine ⟨x, List.mem_filter.mpr ⟨h, hall x h⟩, rfl⟩
    · rw [if_neg hfin]
      rw [ih]
      simp only [hsplit, List.map_map]
      constructor
      · intro h
        rcases h with h | h
        · rcases List.mem_append.mp h with h1 | h1
          · exact Or.inl h1
          · rcases List.mem_map.mp h1 with ⟨a, ha, he⟩
            exact Or.inr (he ▸ (List.mem_filter.mp ha).1)
        · exact Or.inr (List.mem_filter.mp h).1
      · intro h
        rcases h with h | h
        · exact Or.inl (List.mem_append.mpr (Or.inl h))
        · by_cases hc : in_cache isdir cd x = true
          · refine Or.inl (List.mem_append.mpr (Or.inr ?_))
            apply List.mem_map.mpr
            exact ⟨x, List.mem_filter.mpr ⟨h, hc⟩, rfl⟩
          · refine Or.inr (List.mem_filter.mpr ⟨h, ?_⟩)
            simp [Bool.eq_false_iff.mpr hc]

theorem assign_labels_mem (lrd : List (String × String)) :
    ∀ (dirs : List (String × String)) (paths u : List String)
      (acc res1 : List (String × String)) (res2 res3 : List String),
    assign_labels lrd dirs paths u acc = .ok (res1, res2, res3) →
    ∀ x, (x ∈ res1.map Prod.fst ∨ x ∈ res3) ↔ (x ∈ acc.map Prod.fst ∨ x ∈ u) := by
  intro dirs
  induction dirs with
  | nil =>
    intro paths u acc res1 res2 res3 h x
    simp only [assign_labels] at h
    injection h with h1
    injection h1 with ha hb
    injection hb with hb1 hb2
    rw [ha, hb2]
  | cons d rest ih =>
    intro paths u acc res1 res2 res3 h x
    obtain ⟨label, path⟩ := d
    simp only [assign_labels] at h
    cases hl : lrd.lookup label with
    | none =>
      simp only [hl] at h
      exact Except.noConfusion h
    | some repo =>
      simp only [hl] at h
      by_cases hc : u.contains repo = true
      · rw [if_pos hc] at h
        have hrepo : repo ∈ u := by simpa using hc
        rw [ih _ _ _ _ _ _ h x]
        rw [List.map_append]
        constructor
        · intro hx
          rcases hx with hx | hx
          · rcases List.mem_append.mp hx with h1 | h1
            · exact Or.inl h1
            · simp only [List.map_cons, List.map_nil] at h1
              have hxr : x = repo := by simpa using h1
              exact Or.inr (hxr ▸ hrepo)
          · exact Or.inr (List.mem_of_mem_erase hx)
        · intro hx
          rcases hx with hx | hx
          · exact Or.inl (List.mem_append.mpr (Or.inl hx))
          · by_cases hxr : x = repo
            · refine Or.inl (List.mem_append.mpr (Or.inr ?_))
              simp [hxr]
            · exact Or.inr ((List.mem_erase_of_ne hxr).mpr hx)
      · rw [if_neg hc] at h
        exact Except.noConfusion h

/-- The required repositories that no cache directory contains. -/
def missing_repos (isdir : String → Bool)
    (cache_dirs unmatched : List String) : List String :=
  unmatched.filter (fun r => !(cache_dirs.any (fun cd => in_cache isdir cd r)))

/-- Claim C6: the cache phase of `search_for_inputs` searches the cache
directories in the given order — a repository not resolved by labeled paths
is mapped to `"<dir>/<repo>"` for the first cache directory `dir`
containing it; the scan of further directories has no effect once every
repository is found; if any repository is contained in no cache directory
the call fails with an error naming exactly the missing repositories; and
whenever `search_for_inputs` returns a mapping, its key set is exactly the
set of required repositories. -/
theorem cache_search_resolution (isdir : String → Bool) :
    (∀ (cds u : List String) (acc : List (String × String)) (r cd : String)
       (m : List (String × String)),
       r ∈ u → acc.lookup r = none →
       List.find? (fun c => in_cache isdir c r) cds = some cd →
       finish_cache isdir cds u acc = .ok m →
       m.lookup r = some (cd ++ "/" ++ r))
    ∧ (∀ (cds u : List String) (acc : List (String × String)),
       missing_repos isdir cds u ≠ [] →
       finish_cache isdir cds u acc
         = .error ("Required repositories not found in supplied locations: "
            ++ String.intercalate ", " (missing_repos isdir cds u)))
    ∧ (∀ (cds1 cds2 u : List String) (acc : List (String × String)),
       (cache_scan isdir cds1 u acc).2 = [] →
       cache_scan isdir (cds1 ++ cds2) u acc = cache_scan isdir cds1 u acc)
    ∧ (∀ (required : List String) (lrd : List (String × String))
         (cds : List String)
         (input_dirs : Option (String ⊕ List (String × String)))
         (m : List (String × String)),
       search_for_inputs required lrd cds isdir input_dirs = .ok m →
       ∀ x, x ∈ m.map Prod.fst ↔ x ∈ required) := by
  have hfin_ok : ∀ (cds u : List String) (acc m : List (String × String)),
      finish_cache isdir cds u acc = .ok m →
      m = (cache_scan isdir cds u acc).1 ∧ (cache_scan isdir cds u acc).2 = [] := by
    intro cds u acc m h
    unfold finish_cache at h
    by_cases h2 : (cache_scan isdir cds u acc).2.length > 0
    · rw [if_pos h2] at h; exact Except.noConfusion h
    · rw [if_neg h2] at h
      refine ⟨(Except.ok.inj h).symm, ?_⟩
      have : (cache_scan isdir cds u acc).2.length = 0 := Nat.eq_zero_of_not_pos h2
      exact List.length_eq_zero.mp this
  refine ⟨?_, ?_, ?_, ?_⟩
  · intro cds u acc r cd m hr hacc hf hok
    obtain ⟨hm, _⟩ := hfin_ok cds u acc m hok
    rw [hm]
    exact cache_scan_first_lookup isdir cds u acc r cd hr hacc hf
  · intro cds u acc hne
    unfold finish_cache
    have h2 : (cache_scan isdir cds u acc).2 = missing_repos isdir cds u :=
      cache_scan_unmatched isdir cds u acc
    rw [if_pos]
    · rw [h2]
    · rw [h2]
      exact List.length_pos.mpr hne
  · exact fun cds1 cds2 u acc h => cache_scan_append_of_done isdir cds1 cds2 u acc h
  · intro required lrd cds input_dirs m hok x
    match input_dirs with
    | some (.inl path) =>
      match required with
      | [r] =>
        simp only [search_for_inputs] at hok
        rw [← Except.ok.inj hok]
        simp
      | [] => exact Except.noConfusion hok
      | r1 :: r2 :: rs => exact Except.noConfusion hok
    | some (.inr dirs) =>
      simp only [search_for_inputs] at hok
      cases hv : validate_labels lrd (dirs.map Prod.fst) with
      | error e =>
        simp only [hv] at hok
        exact Except.noConfusion hok
      | ok uu =>
        simp only [hv] at hok
        cases ha : assign_labels lrd dirs (dirs.map Prod.snd) required [] with
        | error e =>
          simp only [ha] at hok
          exact Except.noConfusion hok
        | ok triple =>
          obtain ⟨acc, paths, unmatched⟩ := triple
          simp only [ha] at hok
          by_cases hp : paths.length > 0
          · rw [if_pos hp] at hok; exact Except.noConfusion hok
          · rw [if_neg hp] at hok
            obtain ⟨hm, h2⟩ := hfin_ok cds unmatched acc m hok
            have hks := cache_scan_mem_keys isdir cds unmatched acc x
            rw [h2] at hks
            have hassign := assign_labels_mem lrd dirs (dirs.map Prod.snd)
              required [] acc paths unmatched ha x
            simp only [List.map_nil, List.not_mem_nil, false_or] at hassign
            rw [hm]
            constructor
            · intro hx
              exact hassign.mp ((hks.mp (Or.inl hx)))
            · intro hx
              rcases hks.mpr (hassign.mpr hx) with h | h
              · exact h
              · simp at h
    | none =>
      simp only [search_for_inputs] at hok
      obtain ⟨hm, h2⟩ := hfin_ok cds required [] m hok
      have hks := cache_scan_mem_keys isdir cds required [] x
      rw [h2, ← hm] at hks
      simp only [List.map_nil, List.not_mem_nil, false_or, or_false] at hks
      exact hks

/-- Witness for claim C6: a concrete run with cache directories
`["c1", "c2"]` where only `c2` contains the required repository `r1`. -/
theorem cache_search_resolution_witness :
    ([("r1", "c2/r1")] : List (String × String)).lookup "r1"
      = some ("c2" ++ "/" ++ "r1")
    ∧ finish_cache (fun p => p == "c2/r1") ["c1"] ["r1"] []
      = .error ("Required repositories not found in supplied locations: "
         ++ String.intercalate ", "
           (missing_repos (fun p => p == "c2/r1") ["c1"] ["r1"]))
    ∧ cache_scan (fun p => p == "c2/r1") (["c2"] ++ ["c3"]) ["r1"] []
      = cache_scan (fun p => p == "c2/r1") ["c2"] ["r1"] []
    ∧ (("r1" : String) ∈ ([("r1", "c2/r1")] : List (String × String)).map Prod.fst
        ↔ ("r1" : String) ∈ (["r1"] : List String)) := by
  refine ⟨?_, ?_, ?_, ?_⟩
  · exact (cache_search_resolution (fun p => p == "c2/r1")).1
      ["c1", "c2"] ["r1"] [] "r1" "c2" [("r1", "c2/r1")]
      (by decide) rfl (by decide) rfl
  · exact (cache_search_resolution (fun p => p == "c2/r1")).2.1
      ["c1"] ["r1"] [] (by decide)
  · exact (cache_search_resolution (fun p => p == "c2/r1")).2.2.1
      ["c2"] ["c3"] ["r1"] [] (by decide)
  · exact (cache_search_resolution (fun p => p == "c2/r1")).2.2.2
      ["r1"] [] ["c1", "c2"] none [("r1", "c2/r1")] rfl "r1"

/-!
## Input-directory argument parsing (docker_cli/_input_finder.py lines 288-365)

Python string `strip`/`split` are modelled over character lists so that the
definitions compute by kernel reduction.
-/

/-- A whitespace character in the sense of Python `str.strip`
(the escape forms occurring in practice). -/
def isSpaceChar (c : Char) : Bool :=
  (c = ' ') || (c = '\t') || (c = '\n') || (c = '\r')

/-- Python `str.strip()`: drop whitespace from both ends. -/
def stripChars (l : List Char) : List Char :=
  ((l.dropWhile isSpaceChar).reverse.dropWhile isSpaceChar).reverse

/-- Python `str.split(sep)` for a one-character separator: splitting the
empty string gives `[""]`, and each separator occurrence opens a new field. -/
def splitOnChar (sep : Char) : List Char → List (List Char)
  | [] => [[]]
  | c :: rest =>
    let r := splitOnChar sep rest
    if c = sep then [] :: r
    else
      match r with
      | [] => [[c]]
      | h :: t => (c :: h) :: t

/-- _input_finder.py lines 330-365: `check_input_kvp`.  A stripped string is
rejected when empty or when it splits on ":" into more than two parts; one
part yields the same key and value, two parts yield a (label, path) pair.
(The empty-split case of the match is unreachable: splitting a non-empty
string yields at least one part.) -/
def check_input_kvp (kvp_str : String) : Except String (String × String) :=
  let string_kvp := stripChars kvp_str.toList
  if string_kvp.length = 0 then
    .error "An empty string is not a valid file reference."
  else
    match splitOnChar ':' string_kvp with
    | [a] => .ok (a.asString, a.asString)
    | [a, b] => .ok (a.asString, b.asString)
    | _ => .error (kvp_str ++ " is not a valid file reference.")

/-- Python dict assignment `d[k] = v` on an insertion-ordered association
list: overwrite an existing key in place, else append the new pair. -/
def dictInsert (d : List (String × String)) (k v : String) :
    List (String × String) :=
  if (d.lookup k).isSome then
    d.map (fun kv => if kv.1 = k then (k, v) else kv)
  else d ++ [(k, v)]

/-- _input_finder.py lines 288-327: the loop of `input_dict_parse`, with
the length of the original argument list fixed.  When an entry is unlabeled
(`key == value`) and the list has more than one entry, source line 323
constructs `ValueError(...)` but does not raise it, so control falls
through to the dictionary insertion. -/
def input_dict_parse_go (length : Nat) :
    List String → List (String × String) →
    Except String (String ⊕ List (String × String))
  | [], acc => .ok (.inr acc)
  | kvp :: rest, acc =>
    match check_input_kvp kvp with
    | .error e => .error e
    | .ok (key, value) =>
      if key = value then
        if length = 1 then .ok (.inl value)
        else input_dict_parse_go length rest (dictInsert acc key value)
      else input_dict_parse_go length rest (dictInsert acc key value)

/-- _input_finder.py lines 288-327: `input_dict_parse`.  Returns either the
single unlabeled path (`.inl`) or the label-to-path dictionary (`.inr`). -/
def input_dict_parse (kvp_strings : List String) :
    Except String (String ⊕ List (String × String)) :=
  input_dict_parse_go kvp_strings.length kvp_strings []

/-- The key-value pair an input string parses to (defaulting on error). -/
def parsed_pair (s : String) : String × String :=
  match check_input_kvp s with
  | .ok kv => kv
  | .error _ => ("", "")

/-- Whether a parse outcome is the unlabeled-with-multiple-inputs error. -/
def isUnlabeledMultiErr :
    Except String (String ⊕ List (String × String)) → Bool
  | .error e =>
    e == "Unlabeled input directories only allowed for tests with only one input."
  | _ => false

theorem append_ne_of_not_suffix {a b c : String}
    (h : (b.toList.isSuffixOf c.toList) = false) : ¬(a ++ b = c) := by
  intro he
  have hs : b.toList.isSuffixOf c.toList = true := by
    rw [List.isSuffixOf_iff_suffix]
    refine ⟨a.toList, ?_⟩
    rw [← he]
    simp [String.toList]
  rw [hs] at h
  exact Bool.noConfusion h

theorem check_input_kvp_err (s e : String) (h : check_input_kvp s = .error e) :
    e = "An empty string is not a valid file reference."
    ∨ e = s ++ " is not a valid file reference." := by
  unfold check_input_kvp at h
  by_cases h0 : (stripChars s.toList).length = 0
  · rw [if_pos h0] at h
    exact Or.inl (Except.error.inj h).symm
  · rw [if_neg h0] at h
    cases hs : splitOnChar ':' (stripChars s.toList) with
    | nil => rw [hs] at h; exact Or.inr (Except.error.inj h).symm
    | cons a t =>
      cases t with
      | nil => rw [hs] at h; exact Except.noConfusion h
      | cons b t2 =>
        cases t2 with
        | nil => rw [hs] at h; exact Except.noConfusion h
        | cons c t3 => rw [hs] at h; exact Or.inr (Except.error.inj h).symm

theorem input_go_no_unlabeled_err (len : Nat) :
    ∀ (l : List String) (acc : List (String × String)),
    isUnlabeledMultiErr (input_dict_parse_go len l acc) = false := by
  intro l
  induction l with
  | nil => intro acc; rfl
  | cons s rest ih =>
    intro acc
    simp only [input_dict_parse_go]
    cases hc : check_input_kvp s with
    | error e =>
      simp only [hc]
      rcases check_input_kvp_err s e hc with he | he
      · subst he; decide
      · subst he
        unfold isUnlabeledMultiErr
        apply beq_eq_false_iff_ne.mpr
        exact append_ne_of_not_suffix (by decide)
    | ok kv =>
      obtain ⟨key, value⟩ := kv
      simp only [hc]
      by_cases hk : key = value
      · rw [if_pos hk]
        by_cases hl : len = 1
        · rw [if_pos hl]; rfl
        · rw [if_neg hl]; exact ih _
      · rw [if_neg hk]; exact ih _

theorem input_go_all_ok (len : Nat) (hlen : ¬(len = 1)) :
    ∀ (l : List String) (acc : List (String × String)),
    (∀ s ∈ l, ∃ kv, check_input_kvp s = .ok kv) →
    (∀ s ∈ l, acc.lookup (parsed_pair s).1 = none) →
    (l.map (fun s => (parsed_pair s).1)).Nodup →
    input_dict_parse_go len l acc = .ok (.inr (acc ++ l.map parsed_pair)) := by
  intro l
  induction l with
  | nil => intro acc _ _ _; simp [input_dict_parse_go]
  | cons s rest ih =>
    intro acc hok hdisj hnd
    obtain ⟨⟨key, value⟩, hc⟩ := hok s (List.mem_cons_self s rest)
    have hpp : parsed_pair s = (key, value) := by
      unfold parsed_pair; rw [hc]
    have hppk : (parsed_pair s).1 = key := by rw [hpp]
    simp only [input_dict_parse_go, hc]
    have hlk : acc.lookup key = none := by
      have hd := hdisj s (List.mem_cons_self s rest)
      rw [hppk] at hd; exact hd
    have hins : dictInsert acc key value = acc ++ [(key, value)] := by
      unfold dictInsert
      rw [hlk]
      simp
    have hnd2 : ((s :: rest).map (fun s2 => (parsed_pair s2).1)).Nodup := hnd
    rw [List.map_cons, List.nodup_cons] at hnd2
    have hrec :
        input_dict_parse_go len rest (acc ++ [(key, value)])
          = .ok (.inr ((acc ++ [(key, value)]) ++ rest.map parsed_pair)) := by
      apply ih
      · exact fun s2 hs2 => hok s2 (List.mem_cons_of_mem s hs2)
      · intro s2 hs2
        rw [lookup_append_none (hdisj s2 (List.mem_cons_of_mem s hs2))]
        have hne : (parsed_pair s2).1 ≠ key := by
          intro he
          apply hnd2.1
          rw [hppk, ← he]
          exact List.mem_map_of_mem _ hs2
        simp [List.lookup, beq_false_of_ne hne]
      · exact hnd2.2
    have hgoal :
        input_dict_parse_go len rest (dictInsert acc key value)
          = .ok (.inr (acc ++ (s :: rest).map parsed_pair)) := by
      rw [hins, hrec, List.map_cons, hpp]
      rw [List.append_assoc]
      rfl
    by_cases hk : key = value
    · rw [if_pos hk, if_neg hlen]
      exact hgoal
    · rw [if_neg hk]
      exact hgoal

/-- Claim C10: `input_dict_parse` never yields the unlabeled-with-multiple-
inputs error: the `ValueError` constructed at _input_finder.py line 323 is
not raised.  For an argument list of two or more well-formed entries whose
labels are distinct, parsing returns normally with the in-order dictionary
of parsed pairs, and every unlabeled entry — one parsing to an equal key
and value, i.e. a plain `[PATH]` — appears in it mapped to itself. -/
theorem input_dict_parse_unlabeled (kvps : List String) :
    isUnlabeledMultiErr (input_dict_parse kvps) = false
    ∧ (2 ≤ kvps.length →
       (∀ s ∈ kvps, ∃ kv, check_input_kvp s = .ok kv) →
       (kvps.map (fun s => (parsed_pair s).1)).Nodup →
       input_dict_parse kvps = .ok (.inr (kvps.map parsed_pair))
       ∧ ∀ s ∈ kvps, ∀ k : String,
         check_input_kvp s = .ok (k, k) → (k, k) ∈ kvps.map parsed_pair) := by
  constructor
  · exact input_go_no_unlabeled_err kvps.length kvps []
  · intro h2 hok hnd
    have hlen : ¬(kvps.length = 1) := by omega
    constructor
    · have h := input_go_all_ok kvps.length hlen kvps []
        hok (by intro s _; rfl) hnd
      rw [input_dict_parse, h]
      simp
    · intro s hs k hck
      have hpp : parsed_pair s = (k, k) := by
        unfold parsed_pair; rw [hck]
      rw [← hpp]
      exact List.mem_map_of_mem parsed_pair hs

/-- Witness for claim C10: the two-entry argument list
`["lab:/q", "./p"]`, whose second entry is an unlabeled path. -/
theorem input_dict_parse_unlabeled_witness :
    isUnlabeledMultiErr (input_dict_parse ["lab:/q", "./p"]) = false
    ∧ input_dict_parse ["lab:/q", "./p"]
        = .ok (.inr [("lab", "/q"), ("./p", "./p")])
    ∧ (("./p", "./p") ∈ (["lab:/q", "./p"].map parsed_pair)) := by
  have h := input_dict_parse_unlabeled ["lab:/q", "./p"]
  have hok : ∀ s ∈ (["lab:/q", "./p"] : List String),
      ∃ kv, check_input_kvp s = .ok kv := by
    intro s hs
    rcases List.mem_cons.mp hs with h1 | h1
    · subst h1
      exact ⟨("lab", "/q"), rfl⟩
    · have h1 : s = "./p" := by simpa using h1
      subst h1
      exact ⟨("./p", "./p"), rfl⟩
  have h2 := h.2 (by decide) hok (by decide)
  refine ⟨h.1, ?_, ?_⟩
  · rw [h2.1]
    rfl
  · exact h2.2 "./p" (by decide) "./p" rfl

/-!
## The workflow engine (docker_cli/_workflows.py)

The host filesystem and the container backend are modelled by an explicit
`World` state: the set of directories and files, a counter naming the next
`mkdtemp` directory, and the log of run commands handed to the backend.
`Path.absolute()` is modelled as the identity on the abstract path
namespace, and `os.makedirs` creates the named directory (intermediate
levels are elided, as nothing here observes them).
-/

/-- Modelled from the spec (sections 3 and 6): the `BindMount` record of
the `_bind_mount` module, absent from the sources (only its tests and call
sites appear): container path, host path and permission. -/
structure BindMount where
  image_mount_point : String
  host_mount_point : String
  permissions : String
deriving DecidableEq

/-- docker_cli/_docker_cmake.py lines 7-16: the build system's install
prefix, `"/app"`. -/
def install_prefix : String := "/app"

/-- Path join via pathlib `/` for the relative components used here. -/
def pjoin (a b : String) : String := a ++ "/" ++ b

/-- The world state threaded through workflow execution. -/
structure World where
  dirs : List String
  files : List String
  tempCounter : Nat
  log : List String
deriving DecidableEq

/-- `os.path.isdir`. -/
def World.isdir (w : World) (p : String) : Bool := w.dirs.contains p

/-- `os.path.isfile`. -/
def World.isfile (w : World) (p : String) : Bool := w.files.contains p

/-- `os.makedirs`. -/
def World.makedirs (w : World) (p : String) : World :=
  { w with dirs := p :: w.dirs }

/-- `tempfile.mkdtemp`: a fresh process-temporary directory, named by the
counter. -/
def World.mkdtemp (w : World) : String × World :=
  ("/tmp/tmp" ++ toString w.tempCounter,
   { w with dirs := ("/tmp/tmp" ++ toString w.tempCounter) :: w.dirs,
            tempCounter := w.tempCounter + 1 })

/-- `shutil.rmtree`: every directory and file at or under `p` disappears. -/
def World.rmtree (w : World) (p : String) : World :=
  { w with dirs := w.dirs.filter (fun d => !(strStartsWith d p)),
           files := w.files.filter (fun f => !(strStartsWith f p)) }

/-- The Image Backend's run invocation (an external collaborator per the
spec): the command is recorded in the log; success is decided separately
by the backend oracle. -/
def World.runBackend (w : World) (cmd : String) : World :=
  { w with log := w.log ++ [cmd] }

theorem rmtree_not_isdir (w : World) (p : String) :
    (w.rmtree p).isdir p = false := by
  unfold World.rmtree World.isdir
  apply Bool.eq_false_iff.mpr
  intro hcon
  have hmem : p ∈ w.dirs.filter (fun d => !(strStartsWith d p)) := by
    simpa using hcon
  have h := (List.mem_filter.mp hmem).2
  have hself : strStartsWith p p = true := by
    unfold strStartsWith
    rw [List.isPrefixOf_iff_prefix]
  rw [hself] at h
  exact Bool.noConfusion h

/-- The errors of the workflow engine: `ValueError` for validation
failures, `TestFailedError` (carrying the failed command; the backend's
stderr is outside the model) for a failed container run. -/
inductive Err where
  | valueError (msg : String)
  | testFailed (cmd : String)
deriving DecidableEq

/-- docker_cli/_workflows.py lines 352-393: the `WorkflowParams` data
container (the `Image` object itself is represented by the backend
oracle). -/
structure WorkflowParams where
  image_tag : String
  input_dict : List (String × String)
  output_dir : String
  scratch_dir : Option String
deriving DecidableEq

/-- docker_cli/_workflows.py line 185: the test subdirectory, `workflow/test`
when a test name is given and `workflow` otherwise. -/
def test_subdir (workflow_name : String) (test : Option String) : String :=
  match test with
  | some t => pjoin workflow_name t
  | none => workflow_name

/-- The bind-mount list built by `workflow_mounts` once validation passed
(docker_cli/_workflows.py lines 191-247): output directory read-write,
runconfig read-only, each input repository read-only, scratch read-write. -/
def workflow_mounts_list (workflow_name : String) (params : WorkflowParams)
    (runconfig runconfig_dir host_scratch_dir : String) : List BindMount :=
  [{ image_mount_point := pjoin install_prefix "output",
     host_mount_point := params.output_dir,
     permissions := "rw" },
   { image_mount_point := pjoin install_prefix runconfig,
     host_mount_point := pjoin (pjoin runconfig_dir workflow_name) runconfig,
     permissions := "ro" }]
  ++ params.input_dict.map (fun kv =>
      { image_mount_point := pjoin (pjoin install_prefix "input") kv.1,
        host_mount_point := kv.2,
        permissions := "ro" })
  ++ [{ image_mount_point := pjoin (pjoin install_prefix "scratch") workflow_name,
        host_mount_point := host_scratch_dir,
        permissions := "rw" }]

/-- docker_cli/_workflows.py lines 134-253: the `workflow_mounts` context
manager, embedded as a runner around the scope `body`.  The output test
subdirectory is created if absent; a missing runconfig is a `ValueError`
raised before any scratch directory exists; with no user scratch directory
a temporary one is created and — by the `try`/`finally` of lines 227-253 —
removed after the body on every exit path; a user-supplied scratch
directory gets its test subdirectory created if absent and is left alone
on exit. -/
def workflow_mounts_run {α : Type} (workflow_name : String)
    (test : Option String) (params : WorkflowParams)
    (runconfig : String) (runconfig_dir : String)
    (body : List BindMount → World → Except Err α × World)
    (w : World) : Except Err α × World :=
  let out_subdir := pjoin params.output_dir (test_subdir workflow_name test)
  let w1 := if w.isdir out_subdir then w else w.makedirs out_subdir
  let runconfig_host_path := pjoin (pjoin runconfig_dir workflow_name) runconfig
  if ¬(w1.isfile runconfig_host_path = true) then
    (.error (.valueError ("Runconfig " ++ runconfig ++ " not found at "
      ++ runconfig_host_path ++ ".")), w1)
  else
    match params.scratch_dir with
    | none =>
      let tw := w1.mkdtemp
      let res := body (workflow_mounts_list workflow_name params runconfig
        runconfig_dir tw.1) tw.2
      (res.1, res.2.rmtree tw.1)
    | some sd =>
      let w2 := if w1.isdir (pjoin sd (test_subdir workflow_name test)) then w1
        else w1.makedirs (pjoin sd (test_subdir workflow_name test))
      body (workflow_mounts_list workflow_name params runconfig runconfig_dir sd) w2

/-- docker_cli/_workflows.py lines 301-349: `run_workflow` — resolve the
command from the workflow name, prepare the mounts, run the container on
the image; a failed run becomes `TestFailedError`. -/
def run_workflow (backend : String → Bool) (params : WorkflowParams)
    (workflow_name : String) (test : Option String)
    (runconfig : String) (runconfig_dir : String) (w : World) :
    Except Err Unit × World :=
  match get_workflow_object workflow_name with
  | .error e => (.error (.valueError e), w)
  | .ok wf =>
    workflow_mounts_run workflow_name test params runconfig runconfig_dir
      (fun _mounts w1 =>
        if backend (wf.get_command runconfig) then
          (.ok (), w1.runBackend (wf.get_command runconfig))
        else
          (.error (.testFailed (wf.get_command runconfig)),
           w1.runBackend (wf.get_command runconfig)))
      w

/-- One entry of a `"series"` list in the test database (`workflowtests.json`,
spec section 6): the child workflow name, its runconfig, the optional tag. -/
structure TestInfo where
  workflow : String
  runconfig : String
  tag : Option String
deriving DecidableEq

/-- docker_cli/_workflows.py lines 256-298: `run_series_workflow` — run the
series entries in listed order; the runconfig directory is
`"runconfigs"/<main test name>` and an entry's tag names its test
subdirectory.  An exception from any entry aborts the remaining entries. -/
def run_series_workflow (backend : String → Bool) (params : WorkflowParams)
    (main_test_name : String) : List TestInfo → World → Except Err Unit × World
  | [], w => (.ok (), w)
  | info :: rest, w =>
    let res := run_workflow backend params info.workflow info.tag
      info.runconfig (pjoin "runconfigs" main_test_name) w
    match res.1 with
    | .ok _ => run_series_workflow backend params main_test_name rest res.2
    | .error e => (.error e, res.2)

/-- The container command a series entry resolves to (defaulting to the
empty string for an unrecognized workflow name — a case that cannot occur
in a successfully completed series). -/
def series_entry_command (info : TestInfo) : String :=
  match get_workflow_object info.workflow with
  | .ok wf => wf.get_command info.runconfig
  | .error _ => ""

theorem makedirs_isdir (w : World) (p : String) :
    (w.makedirs p).isdir p = true := by
  simp [World.makedirs, World.isdir, List.contains_cons]

/-- The world prepared for the body by `workflow_mounts` before the scope
runs: the output test subdirectory created if absent, and — for a
user-supplied scratch directory `sd` — the scratch test subdirectory
created if absent. -/
def prepared_world (workflow_name : String) (test : Option String)
    (params : WorkflowParams) (sd : String) (w : World) : World :=
  let w1 := if w.isdir (pjoin params.output_dir (test_subdir workflow_name test))
    then w
    else w.makedirs (pjoin params.output_dir (test_subdir workflow_name test))
  if w1.isdir (pjoin sd (test_subdir workflow_name test)) then w1
  else w1.makedirs (pjoin sd (test_subdir workflow_name test))

/-- Claim C1: the scratch-directory lifecycle of `workflow_mounts`.  With
`scratch_dir is None`, the temporary directory named by the current
counter does not exist on disk once the context has exited, whatever the
body did and whether it returned normally or raised (and on the
validation-error path it is never created).  With a user-supplied scratch
directory, the scratch test subdirectory is created if absent before the
body runs, and the context deletes nothing on exit: the run is exactly the
body applied to the prepared world. -/
theorem workflow_mounts_scratch_lifecycle
    (workflow_name : String) (test : Option String) (params : WorkflowParams)
    (runconfig runconfig_dir : String) {α : Type}
    (body : List BindMount → World → Except Err α × World) (w : World) :
    (params.scratch_dir = none →
     w.dirs.contains ("/tmp/tmp" ++ toString w.tempCounter) = false →
     ¬(pjoin params.output_dir (test_subdir workflow_name test)
        = "/tmp/tmp" ++ toString w.tempCounter) →
     ((workflow_mounts_run workflow_name test params runconfig runconfig_dir
        body w).2.isdir ("/tmp/tmp" ++ toString w.tempCounter)) = false)
    ∧ (∀ sd, params.scratch_dir = some sd →
       (prepared_world workflow_name test params sd w).isdir
         (pjoin sd (test_subdir workflow_name test)) = true
       ∧ ((if w.isdir (pjoin params.output_dir (test_subdir workflow_name test))
            then w
            else w.makedirs (pjoin params.output_dir
              (test_subdir workflow_name test))).isfile
           (pjoin (pjoin runconfig_dir workflow_name) runconfig) = true →
          workflow_mounts_run workflow_name test params runconfig
            runconfig_dir body w
            = body (workflow_mounts_list workflow_name params runconfig
                runconfig_dir sd)
               (prepared_world workflow_name test params sd w))) := by
  constructor
  · intro hs h1 h2
    simp only [workflow_mounts_run, hs]
    by_cases hout : w.isdir (pjoin params.output_dir
      (test_subdir workflow_name test)) = true
    · rw [if_pos hout]
      by_cases hval : (w.isfile (pjoin (pjoin runconfig_dir workflow_name)
        runconfig)) = true
      · rw [if_neg (not_not_intro hval)]
        exact rmtree_not_isdir _ _
      · rw [if_pos hval]
        exact (by simpa [World.isdir] using h1)
    · rw [if_neg hout]
      by_cases hval : ((w.makedirs (pjoin params.output_dir
          (test_subdir workflow_name test))).isfile
          (pjoin (pjoin runconfig_dir workflow_name) runconfig)) = true
      · rw [if_neg (not_not_intro hval)]
        have e : (w.makedirs (pjoin params.output_dir
            (test_subdir workflow_name test))).mkdtemp.1
            = "/tmp/tmp" ++ toString w.tempCounter := rfl
        rw [e]
        exact rmtree_not_isdir _ _
      · rw [if_pos hval]
        simp only [World.isdir, World.makedirs]
        rw [List.contains_cons]
        have hb : ((("/tmp/tmp" ++ toString w.tempCounter))
            == pjoin params.output_dir (test_subdir workflow_name test)) = false :=
          beq_false_of_ne (fun he => h2 he.symm)
        have hb2 : ((pjoin params.output_dir (test_subdir workflow_name test))
            == ("/tmp/tmp" ++ toString w.tempCounter)) = false :=
          beq_false_of_ne h2
        simp only [hb, hb2, Bool.false_or]
        simpa [World.isdir] using h1
  · intro sd hs
    constructor
    · unfold prepared_world
      by_cases hsd : (if w.isdir (pjoin params.output_dir
          (test_subdir workflow_name test)) = true then w
          else w.makedirs (pjoin params.output_dir
            (test_subdir workflow_name test))).isdir
          (pjoin sd (test_subdir workflow_name test)) = true
      · rw [if_pos hsd]; exact hsd
      · rw [if_neg hsd]; exact makedirs_isdir _ _
    · intro hval
      simp only [workflow_mounts_run, hs]
      rw [if_neg (not_not_intro hval)]
      rfl

/-- Witness for claim C1: a concrete world holding the runconfig file, run
once with a system-generated scratch directory and once with the
user-supplied scratch directory `"/scr"`. -/
theorem workflow_mounts_scratch_lifecycle_witness :
    ((workflow_mounts_run "gslc" none
        ⟨"img", [], "/out", none⟩ "r.yaml" "runconfig"
        (fun _ w1 => (Except.ok (), w1))
        ⟨[], ["runconfig/gslc/r.yaml"], 0, []⟩).2.isdir
      ("/tmp/tmp" ++ toString (0 : Nat))) = false
    ∧ (prepared_world "gslc" none ⟨"img", [], "/out", some "/scr"⟩ "/scr"
        ⟨[], ["runconfig/gslc/r.yaml"], 0, []⟩).isdir
        (pjoin "/scr" (test_subdir "gslc" none)) = true
    ∧ workflow_mounts_run "gslc" none
        ⟨"img", [], "/out", some "/scr"⟩ "r.yaml" "runconfig"
        (fun _ w1 => (Except.ok (), w1))
        ⟨[], ["runconfig/gslc/r.yaml"], 0, []⟩
        = (fun _ w1 => ((Except.ok () : Except Err Unit), w1))
            (workflow_mounts_list "gslc" ⟨"img", [], "/out", some "/scr"⟩
              "r.yaml" "runconfig" "/scr")
            (prepared_world "gslc" none ⟨"img", [], "/out", some "/scr"⟩
              "/scr" ⟨[], ["runconfig/gslc/r.yaml"], 0, []⟩) := by
  refine ⟨?_, ?_, ?_⟩
  · exact (workflow_mounts_scratch_lifecycle "gslc" none
      ⟨"img", [], "/out", none⟩ "r.yaml" "runconfig"
      (fun _ w1 => (Except.ok (), w1))
      ⟨[], ["runconfig/gslc/r.yaml"], 0, []⟩).1 rfl (by decide) (by decide)
  · exact ((workflow_mounts_scratch_lifecycle "gslc" none
      ⟨"img", [], "/out", some "/scr"⟩ "r.yaml" "runconfig"
      (fun _ w1 => (Except.ok (), w1))
      ⟨[], ["runconfig/gslc/r.yaml"], 0, []⟩).2 "/scr" rfl).1
  · exact ((workflow_mounts_scratch_lifecycle "gslc" none
      ⟨"img", [], "/out", some "/scr"⟩ "r.yaml" "runconfig"
      (fun _ w1 => (Except.ok (), w1))
      ⟨[], ["runconfig/gslc/r.yaml"], 0, []⟩).2 "/scr" rfl).2 (by decide)

@[simp]
theorem log_makedirs (w : World) (p : String) : (w.makedirs p).log = w.log := rfl

@[simp]
theorem log_mkdtemp (w : World) : (w.mkdtemp).2.log = w.log := rfl

@[simp]
theorem log_rmtree (w : World) (p : String) : (w.rmtree p).log = w.log := rfl

@[simp]
theorem log_runBackend (w : World) (c : String) :
    (w.runBackend c).log = w.log ++ [c] := rfl

theorem log_makedirs_if (w : World) (p : String) (c : Prop) [Decidable c] :
    (if c then w else w.makedirs p).log = w.log := by
  by_cases h : c
  · rw [if_pos h]
  · rw [if_neg h]; rfl

theorem workflow_mounts_run_shape {α : Type} (workflow_name : String)
    (test : Option String) (params : WorkflowParams)
    (runconfig runconfig_dir : String)
    (body : List BindMount → World → Except Err α × World) (w : World) :
    ((∃ msg, (workflow_mounts_run workflow_name test params runconfig
        runconfig_dir body w).1 = .error (.valueError msg))
      ∧ (workflow_mounts_run workflow_name test params runconfig
          runconfig_dir body w).2.log = w.log)
    ∨ ∃ m w2, w2.log = w.log
        ∧ (workflow_mounts_run workflow_name test params runconfig
            runconfig_dir body w).1 = (body m w2).1
        ∧ (workflow_mounts_run workflow_name test params runconfig
            runconfig_dir body w).2.log = (body m w2).2.log := by
  simp only [workflow_mounts_run]
  by_cases hval : ((if w.isdir (pjoin params.output_dir
      (test_subdir workflow_name test)) = true then w
      else w.makedirs (pjoin params.output_dir
        (test_subdir workflow_name test))).isfile
      (pjoin (pjoin runconfig_dir workflow_name) runconfig)) = true
  · rw [if_neg (not_not_intro hval)]
    cases hsc : params.scratch_dir with
    | none =>
      refine Or.inr ⟨_, _, ?_, rfl, ?_⟩
      · show ((if w.isdir (pjoin params.output_dir
            (test_subdir workflow_name test)) = true then w
            else w.makedirs (pjoin params.output_dir
              (test_subdir workflow_name test))).mkdtemp.2).log = w.log
        rw [log_mkdtemp, log_makedirs_if]
      · exact log_rmtree _ _
    | some sd =>
      refine Or.inr ⟨_, _, ?_, rfl, rfl⟩
      show ((if (if w.isdir (pjoin params.output_dir
          (test_subdir workflow_name test)) = true then w
          else w.makedirs (pjoin params.output_dir
            (test_subdir workflow_name test))).isdir
          (pjoin sd (test_subdir workflow_name test)) = true
        then (if w.isdir (pjoin params.output_dir
            (test_subdir workflow_name test)) = true then w
          else w.makedirs (pjoin params.output_dir
            (test_subdir workflow_name test)))
        else (if w.isdir (pjoin params.output_dir
            (test_subdir workflow_name test)) = true then w
          else w.makedirs (pjoin params.output_dir
            (test_subdir workflow_name test))).makedirs
            (pjoin sd (test_subdir workflow_name test)))).log = w.log
      rw [log_makedirs_if, log_makedirs_if]
  · rw [if_pos hval]
    exact Or.inl ⟨⟨_, rfl⟩, log_makedirs_if _ _ _⟩

theorem run_workflow_log (backend : String → Bool) (params : WorkflowParams)
    (workflow_name : String) (test : Option String)
    (runconfig runconfig_dir : String) (w : World) :
    ((run_workflow backend params workflow_name test runconfig runconfig_dir
        w).2.log = w.log
      ∨ (run_workflow backend params workflow_name test runconfig runconfig_dir
        w).2.log = w.log
          ++ [series_entry_command ⟨workflow_name, runconfig, test⟩])
    ∧ ((run_workflow backend params workflow_name test runconfig runconfig_dir
        w).1 = .ok () →
      (run_workflow backend params workflow_name test runconfig runconfig_dir
        w).2.log = w.log
          ++ [series_entry_command ⟨workflow_name, runconfig, test⟩]) := by
  cases hobj : get_workflow_object workflow_name with
  | error e =>
    have h1 : run_workflow backend params workflow_name test runconfig
        runconfig_dir w = (.error (.valueError e), w) := by
      simp only [run_workflow, hobj]
    rw [h1]
    exact ⟨Or.inl rfl, fun h => Except.noConfusion h⟩
  | ok wf =>
    have hcmd : series_entry_command ⟨workflow_name, runconfig, test⟩
        = wf.get_command runconfig := by
      unfold series_entry_command
      rw [hobj]
    rw [hcmd]
    simp only [run_workflow, hobj]
    rcases workflow_mounts_run_shape workflow_name test params runconfig
      runconfig_dir
      (fun _mounts w1 =>
        if backend (wf.get_command runconfig) then
          (.ok (), w1.runBackend (wf.get_command runconfig))
        else
          (.error (.testFailed (wf.get_command runconfig)),
           w1.runBackend (wf.get_command runconfig)))
      w with ⟨⟨msg, herr⟩, hlog⟩ | ⟨m, w2, hw2, h1, h2⟩
    · refine ⟨Or.inl hlog, fun h => ?_⟩
      rw [herr] at h
      exact Except.noConfusion h
    · have hbody : (if backend (wf.get_command runconfig) then
          ((.ok () : Except Err Unit),
            w2.runBackend (wf.get_command runconfig))
        else
          (.error (.testFailed (wf.get_command runconfig)),
           w2.runBackend (wf.get_command runconfig))).2.log
          = w.log ++ [wf.get_command runconfig] := by
        by_cases hb : backend (wf.get_command runconfig) = true
        · rw [if_pos hb, log_runBackend, hw2]
        · rw [if_neg hb]
          show (w2.runBackend (wf.get_command runconfig)).log
            = w.log ++ [wf.get_command runconfig]
          rw [log_runBackend, hw2]
      rw [h2] at *
      exact ⟨Or.inr hbody, fun _ => hbody⟩

theorem run_workflow_ok_recognized (backend : String → Bool)
    (params : WorkflowParams) (workflow_name : String) (test : Option String)
    (runconfig runconfig_dir : String) (w : World)
    (h : (run_workflow backend params workflow_name test runconfig
      runconfig_dir w).1 = .ok ()) :
    ∃ wf, get_workflow_object workflow_name = .ok wf := by
  cases hobj : get_workflow_object workflow_name with
  | error e =>
    have h1 : run_workflow backend params workflow_name test runconfig
        runconfig_dir w = (.error (.valueError e), w) := by
      simp only [run_workflow, hobj]
    rw [h1] at h
    exact Except.noConfusion h
  | ok wf => exact ⟨wf, rfl⟩

theorem run_workflow_unrecognized (backend : String → Bool)
    (params : WorkflowParams) (workflow_name : String) (test : Option String)
    (runconfig runconfig_dir : String) (w : World) (e : String)
    (hobj : get_workflow_object workflow_name = .error e) :
    run_workflow backend params workflow_name test runconfig runconfig_dir w
      = (.error (.valueError e), w) := by
  simp only [run_workflow, hobj]

theorem run_series_ok_log (backend : String → Bool) (params : WorkflowParams)
    (main : String) :
    ∀ (infos : List TestInfo) (w : World),
    (run_series_workflow backend params main infos w).1 = .ok () →
    (run_series_workflow backend params main infos w).2.log
      = w.log ++ infos.map series_entry_command := by
  intro infos
  induction infos with
  | nil => intro w _; simp [run_series_workflow]
  | cons info rest ih =>
    intro w h
    obtain ⟨iw, irc, itag⟩ := info
    simp only [run_series_workflow] at h ⊢
    cases hres : (run_workflow backend params iw itag irc
        (pjoin "runconfigs" main) w).1 with
    | ok u =>
      rw [hres] at h
      have h2 : (run_series_workflow backend params main rest
          (run_workflow backend params iw itag irc
            (pjoin "runconfigs" main) w).2).1 = .ok () := h
      have hw1 := (run_workflow_log backend params iw itag irc
        (pjoin "runconfigs" main) w).2 (by rw [hres])
      show (run_series_workflow backend params main rest
          (run_workflow backend params iw itag irc
            (pjoin "runconfigs" main) w).2).2.log = _
      rw [ih _ h2, hw1]
      simp [List.map_cons, List.append_assoc]
    | error e =>
      rw [hres] at h
      exact Except.noConfusion h

theorem run_series_log_prefix (backend : String → Bool)
    (params : WorkflowParams) (main : String) :
    ∀ (infos : List TestInfo) (w : World),
    ∃ k, k ≤ infos.length ∧
    (run_series_workflow backend params main infos w).2.log
      = w.log ++ (infos.take k).map series_entry_command := by
  intro infos
  induction infos with
  | nil =>
    intro w
    exact ⟨0, Nat.le_refl 0, by simp [run_series_workflow]⟩
  | cons info rest ih =>
    intro w
    obtain ⟨iw, irc, itag⟩ := info
    simp only [run_series_workflow]
    cases hres : (run_workflow backend params iw itag irc
        (pjoin "runconfigs" main) w).1 with
    | ok u =>
      have hw1 := (run_workflow_log backend params iw itag irc
        (pjoin "runconfigs" main) w).2 (by rw [hres])
      obtain ⟨k, hk, hlog⟩ := ih ((run_workflow backend params iw itag irc
        (pjoin "runconfigs" main) w).2)
      refine ⟨k + 1, by simpa using Nat.succ_le_succ hk, ?_⟩
      rw [hlog, hw1]
      simp [List.append_assoc]
    | error e =>
      rcases (run_workflow_log backend params iw itag irc
        (pjoin "runconfigs" main) w).1 with hw1 | hw1
      · exact ⟨0, Nat.zero_le _, by simpa using hw1⟩
      · refine ⟨1, by simp, ?_⟩
        simpa using hw1

theorem run_series_ok_recognized (backend : String → Bool)
    (params : WorkflowParams) (main : String) :
    ∀ (infos : List TestInfo) (w : World),
    (run_series_workflow backend params main infos w).1 = .ok () →
    ∀ info ∈ infos, ∃ wf, get_workflow_object info.workflow = .ok wf := by
  intro infos
  induction infos with
  | nil => intro w _ info hmem; simp at hmem
  | cons hd rest ih =>
    intro w h info hmem
    simp only [run_series_workflow] at h
    cases hres : (run_workflow backend params hd.workflow hd.tag hd.runconfig
        (pjoin "runconfigs" main) w).1 with
    | ok u =>
      rw [hres] at h
      have h2 : (run_series_workflow backend params main rest
          (run_workflow backend params hd.workflow hd.tag hd.runconfig
            (pjoin "runconfigs" main) w).2).1 = .ok () := h
      rcases List.mem_cons.mp hmem with he | hm
      · subst he
        exact run_workflow_ok_recognized backend params info.workflow info.tag
          info.runconfig (pjoin "runconfigs" main) w (by rw [hres])
      · exact ih _ h2 info hm
    | error e =>
      rw [hres] at h
      exact Except.noConfusion h

theorem run_series_append (backend : String → Bool) (params : WorkflowParams)
    (main : String) :
    ∀ (l1 l2 : List TestInfo) (w : World),
    (run_series_workflow backend params main l1 w).1 = .ok () →
    run_series_workflow backend params main (l1 ++ l2) w
      = run_series_workflow backend params main l2
          (run_series_workflow backend params main l1 w).2 := by
  intro l1
  induction l1 with
  | nil => intro l2 w _; rfl
  | cons hd rest ih =>
    intro l2 w h
    simp only [run_series_workflow, List.cons_append] at h ⊢
    cases hres : (run_workflow backend params hd.workflow hd.tag hd.runconfig
        (pjoin "runconfigs" main) w).1 with
    | ok u =>
      rw [hres] at h
      have h2 : (run_series_workflow backend params main rest
          (run_workflow backend params hd.workflow hd.tag hd.runconfig
            (pjoin "runconfigs" main) w).2).1 = .ok () := h
      exact ih l2 _ h2
    | error e =>
      rw [hres] at h
      exact Except.noConfusion h

/-!
## Nested multi-test series (modelled from the spec)

wigwam/commands.py lines 557-584 run a multi test through a recursive
`run_series_workflow` imported from wigwam's `_workflows` module, which is
absent from the sources; its caller's comment documents it as "the
recursive run_series_workflow function".  The recursion over nested series
is therefore modelled from the spec (sections 4.6 and 9): a multi node
expands its series and runs each child depth-first in listed order, and a
single node is one workflow invocation.
-/

mutual

/-- Modelled from the spec: a test-spec tree — a single test or a multi
test owning an ordered series of children. -/
inductive TestSpecTree where
  | single (info : TestInfo)
  | multi (series : TestSpecForest)

/-- Modelled from the spec: an ordered series of child test specs. -/
inductive TestSpecForest where
  | nil
  | cons (t : TestSpecTree) (ts : TestSpecForest)

end

mutual

/-- Modelled from the spec: run one node — a single test as one workflow
invocation, a multi test by expanding its series. -/
def run_test_tree (backend : String → Bool) (params : WorkflowParams)
    (main : String) : TestSpecTree → World → Except Err Unit × World
  | .single info, w =>
    run_workflow backend params info.workflow info.tag info.runconfig
      (pjoin "runconfigs" main) w
  | .multi series, w => run_test_forest backend params main series w

/-- Modelled from the spec: run the children of a series depth-first, in
listed order, stopping at the first failure. -/
def run_test_forest (backend : String → Bool) (params : WorkflowParams)
    (main : String) : TestSpecForest → World → Except Err Unit × World
  | .nil, w => (.ok (), w)
  | .cons t ts, w =>
    match run_test_tree backend params main t w with
    | (.ok _, w1) => run_test_forest backend params main ts w1
    | (.error e, w1) => (.error e, w1)

end

mutual

/-- The depth-first, in-order workflow-command list of a test tree. -/
def df_commands : TestSpecTree → List String
  | .single info => [series_entry_command info]
  | .multi series => df_commands_forest series

/-- The depth-first, in-order workflow-command list of a series. -/
def df_commands_forest : TestSpecForest → List String
  | .nil => []
  | .cons t ts => df_commands t ++ df_commands_forest ts

end

mutual

theorem run_test_tree_ok_log (backend : String → Bool)
    (params : WorkflowParams) (main : String) :
    ∀ (t : TestSpecTree) (w : World),
    (run_test_tree backend params main t w).1 = .ok () →
    (run_test_tree backend params main t w).2.log = w.log ++ df_commands t
  | .single info, w, h => by
    simp only [run_test_tree, df_commands]
    obtain ⟨iw, irc, itag⟩ := info
    exact (run_workflow_log backend params iw itag irc
      (pjoin "runconfigs" main) w).2 (by exact h)
  | .multi series, w, h => by
    simp only [run_test_tree, df_commands]
    exact run_test_forest_ok_log backend params main series w (by exact h)

theorem run_test_forest_ok_log (backend : String → Bool)
    (params : WorkflowParams) (main : String) :
    ∀ (ts : TestSpecForest) (w : World),
    (run_test_forest backend params main ts w).1 = .ok () →
    (run_test_forest backend params main ts w).2.log
      = w.log ++ df_commands_forest ts
  | .nil, w, h => by simp [run_test_forest, df_commands_forest]
  | .cons t ts, w, h => by
    simp only [run_test_forest, df_commands_forest] at h ⊢
    cases hres : run_test_tree backend params main t w with
    | mk r1 w1 =>
      cases r1 with
      | ok u =>
        rw [hres] at h
        have h2 : (run_test_forest backend params main ts w1).1 = .ok () := h
        have htree := run_test_tree_ok_log backend params main t w
          (by rw [hres])
        rw [hres] at htree
        show (run_test_forest backend params main ts w1).2.log = _
        rw [run_test_forest_ok_log backend params main ts w1 h2, htree]
        simp [List.append_assoc]
      | error e =>
        rw [hres] at h
        exact Except.noConfusion h

end

/-- Claim C4: series-execution order.  docker_cli's `run_series_workflow`
extends the backend log by the commands of its entries strictly in listed
order: a completed series logs exactly the in-order command list, and
every run — completed or aborted — logs a prefix of it (so entry B's run
can only start after entry A's run invocation completed).  The recursive
runner (modelled from the spec for nested multi tests) runs a series
`[A, B, C]` depth-first: a completed run logs A's commands, then B's,
then C's. -/
theorem series_execution_order (backend : String → Bool)
    (params : WorkflowParams) (main : String) :
    (∀ (infos : List TestInfo) (w : World),
      (run_series_workflow backend params main infos w).1 = .ok () →
      (run_series_workflow backend params main infos w).2.log
        = w.log ++ infos.map series_entry_command)
    ∧ (∀ (infos : List TestInfo) (w : World),
      ∃ k, k ≤ infos.length ∧
      (run_series_workflow backend params main infos w).2.log
        = w.log ++ (infos.take k).map series_entry_command)
    ∧ (∀ (a b c : TestSpecTree) (w : World),
      (run_test_forest backend params main
        (.cons a (.cons b (.cons c .nil))) w).1 = .ok () →
      (run_test_forest backend params main
        (.cons a (.cons b (.cons c .nil))) w).2.log
        = w.log ++ df_commands a ++ df_commands b ++ df_commands c) := by
  refine ⟨run_series_ok_log backend params main,
    run_series_log_prefix backend params main, ?_⟩
  intro a b c w h
  rw [run_test_forest_ok_log backend params main _ w h]
  simp only [df_commands_forest]
  simp [List.append_assoc]

/-- Claim C9: an unrecognized series entry raises instead of being
skipped.  `"parallel"` is not a recognized workflow name; a series whose
entries before some unrecognized entry completed fails exactly at that
entry with the dispatch `ValueError`, the world left as after the
completed prefix — no backend invocation happens for the unrecognized
entry and nothing after it runs; and a series that completed successfully
had every entry's workflow name recognized, so no entry is ever dropped
without an exception. -/
theorem series_parallel_entry_raises (backend : String → Bool)
    (params : WorkflowParams) (main : String) :
    get_workflow_object "parallel" = .error "Workflow parallel not recognized"
    ∧ (∀ (pre rest : List TestInfo) (bad : TestInfo) (w w1 : World)
        (e : String),
       run_series_workflow backend params main pre w = (.ok (), w1) →
       get_workflow_object bad.workflow = .error e →
       run_series_workflow backend params main (pre ++ bad :: rest) w
         = (.error (.valueError e), w1))
    ∧ (∀ (infos : List TestInfo) (w : World),
       (run_series_workflow backend params main infos w).1 = .ok () →
       ∀ info ∈ infos, ∃ wf, get_workflow_object info.workflow = .ok wf) := by
  refine ⟨rfl, ?_, run_series_ok_recognized backend params main⟩
  intro pre rest bad w w1 e hpre hbad
  have happ := run_series_append backend params main pre (bad :: rest) w
    (by rw [hpre])
  rw [happ, hpre]
  show run_series_workflow backend params main (bad :: rest) w1 = _
  obtain ⟨bw, brc, btag⟩ := bad
  simp only [run_series_workflow,
    run_workflow_unrecognized backend params bw btag brc
      (pjoin "runconfigs" main) w1 e hbad]

/-- Witness for claim C4: a one-entry series and a three-child series of
single tests, run on a world holding the runconfig files, with a backend
that succeeds. -/
theorem series_execution_order_witness :
    (run_series_workflow (fun _ => true) ⟨"img", [], "/out", some "/scr"⟩
        "m0" [⟨"gslc", "r.yaml", none⟩]
        ⟨[], ["runconfigs/m0/gslc/r.yaml"], 0, []⟩).2.log
      = (⟨[], ["runconfigs/m0/gslc/r.yaml"], 0, []⟩ : World).log
        ++ List.map series_entry_command [⟨"gslc", "r.yaml", none⟩]
    ∧ (run_test_forest (fun _ => true) ⟨"img", [], "/out", some "/scr"⟩ "m0"
        (.cons (.single ⟨"gslc", "r.yaml", none⟩)
          (.cons (.single ⟨"gcov", "r2.yaml", none⟩)
            (.cons (.single ⟨"rslc", "r3.yaml", none⟩) .nil)))
        ⟨[], ["runconfigs/m0/gslc/r.yaml", "runconfigs/m0/gcov/r2.yaml",
              "runconfigs/m0/rslc/r3.yaml"], 0, []⟩).2.log
      = (⟨[], ["runconfigs/m0/gslc/r.yaml", "runconfigs/m0/gcov/r2.yaml",
              "runconfigs/m0/rslc/r3.yaml"], 0, []⟩ : World).log
        ++ df_commands (.single ⟨"gslc", "r.yaml", none⟩)
        ++ df_commands (.single ⟨"gcov", "r2.yaml", none⟩)
        ++ df_commands (.single ⟨"rslc", "r3.yaml", none⟩) := by
  constructor
  · exact (series_execution_order (fun _ => true)
      ⟨"img", [], "/out", some "/scr"⟩ "m0").1
      [⟨"gslc", "r.yaml", none⟩]
      ⟨[], ["runconfigs/m0/gslc/r.yaml"], 0, []⟩ (by rfl)
  · exact (series_execution_order (fun _ => true)
      ⟨"img", [], "/out", some "/scr"⟩ "m0").2.2
      (.single ⟨"gslc", "r.yaml", none⟩)
      (.single ⟨"gcov", "r2.yaml", none⟩)
      (.single ⟨"rslc", "r3.yaml", none⟩)
      ⟨[], ["runconfigs/m0/gslc/r.yaml", "runconfigs/m0/gcov/r2.yaml",
            "runconfigs/m0/rslc/r3.yaml"], 0, []⟩ (by rfl)

/-- Witness for claim C9: a series whose sole entry names "parallel" fails
with the dispatch error and the world untouched, and a completed series
had its entry recognized. -/
theorem series_parallel_entry_raises_witness :
    run_series_workflow (fun _ => true) ⟨"img", [], "/out", some "/scr"⟩ "m0"
      ([] ++ (⟨"parallel", "r.yaml", none⟩ : TestInfo) :: [])
      ⟨[], [], 0, []⟩
      = (.error (.valueError "Workflow parallel not recognized"),
         (⟨[], [], 0, []⟩ : World))
    ∧ ∃ wf, get_workflow_object
        (⟨"gslc", "r.yaml", none⟩ : TestInfo).workflow = .ok wf := by
  constructor
  · exact (series_parallel_entry_raises (fun _ => true)
      ⟨"img", [], "/out", some "/scr"⟩ "m0").2.1
      [] [] ⟨"parallel", "r.yaml", none⟩ ⟨[], [], 0, []⟩ ⟨[], [], 0, []⟩
      "Workflow parallel not recognized" rfl rfl
  · exact (series_parallel_entry_raises (fun _ => true)
      ⟨"img", [], "/out", some "/scr"⟩ "m0").2.2
      [⟨"gslc", "r.yaml", none⟩]
      ⟨[], ["runconfigs/m0/gslc/r.yaml"], 0, []⟩ (by rfl)
      ⟨"gslc", "r.yaml", none⟩ (List.mem_cons_self _ _)

/-!
## The build pipeline (docker_cli/commands.py)
-/

/-- A character of the `[a-zA-Z0-9-]` class of the GitHub repo pattern
(docker_cli/commands.py line 56). -/
def repoChar (c : Char) : Bool := c.isAlphanum || c = '-'

/-- docker_cli/commands.py lines 54-65: the match of
`^(?P<user>[a-zA-Z0-9-]+)/(?P<repo>[a-zA-Z0-9-]+)$` against the repo
string, returning the `repo` group on success. -/
def github_repo_match (repo : String) : Option String :=
  match splitOnChar '/' repo.toList with
  | [user, name] =>
    if (!user.isEmpty) && (!name.isEmpty)
        && user.all repoChar && name.all repoChar
    then some name.asString else none
  | _ => none

/-- A built image, identified by the build inputs visible at the tag
level: the resolved tag and the base it was built from (the Image Backend
is an external collaborator per the spec). -/
structure BuiltImage where
  tag : String
  base : String
deriving DecidableEq

/-- docker_cli/commands.py lines 28-76: `clone` — reject a malformed repo
name, resolve the tag, build the clone image from `base`. -/
def clone (pfx tag base repo : String) : Except String BuiltImage :=
  match github_repo_match repo with
  | none => .error ("Malformed GitHub repo name: " ++ repo
      ++ " - Please use form [USER]/[REPO_NAME].")
  | some _ => .ok { tag := resolve_tag pfx tag, base := base }

/-- docker_cli/commands.py lines 138-170, 173-195 and 198-232: `configure`,
`compile` and `install` each resolve their tag argument and build from
`base`; at the tag level the three behave identically. -/
def build_stage (pfx tag base : String) : BuiltImage :=
  { tag := resolve_tag pfx tag, base := base }

/-- docker_cli/commands.py lines 235-329: `build_all`, on the repo branch
(`copy_path is None`, the case the claims concern; the copy branch differs
only in its source stage): clone, configure, compile and install chained
in order, each stage based on the previous stage's tag; returns the
insertion-ordered map from produced tags to images. -/
def build_all (pfx tag base repo : String) :
    Except String (List (String × BuiltImage)) :=
  match clone pfx (pfx ++ "-" ++ tag ++ "-git-repo") base repo with
  | .error e => .error e
  | .ok git_repo_image =>
    .ok [(pfx ++ "-" ++ tag ++ "-git-repo", git_repo_image),
         (pfx ++ "-" ++ tag ++ "-configured",
          build_stage pfx (pfx ++ "-" ++ tag ++ "-configured")
            (pfx ++ "-" ++ tag ++ "-git-repo")),
         (pfx ++ "-" ++ tag ++ "-built",
          build_stage pfx (pfx ++ "-" ++ tag ++ "-built")
            (pfx ++ "-" ++ tag ++ "-configured")),
         (pfx ++ "-" ++ tag ++ "-installed",
          build_stage pfx (pfx ++ "-" ++ tag ++ "-installed")
            (pfx ++ "-" ++ tag ++ "-built"))]

/-- Modelled from the spec (section 4.5): the stage-tag naming scheme
derived from the prefix-resolved root tag,
`"<resolved-tag-prefix>-<stage-suffix>"`. -/
def spec_stage_tags (pfx tag : String) : List String :=
  [resolve_tag pfx tag ++ "-git-repo", resolve_tag pfx tag ++ "-configured",
   resolve_tag pfx tag ++ "-built", resolve_tag pfx tag ++ "-installed"]

theorem resolve_tag_append (pfx x : String) :
    resolve_tag pfx (pfx ++ x) = pfx ++ x := by
  unfold resolve_tag
  rw [strStartsWith_append]
  simp

/-- Claim C7 counterexample: for a root tag already carrying the prefix
(prefix `"p"`, tag `"p"`), the map keys produced by `build_all` are
`"p-p-<suffix>"`, which do not follow the scheme derived from the
prefix-resolved root tag (`resolve "p" "p" = "p"`, scheme `"p-<suffix>"`):
the prefix is prepended unconditionally. -/
theorem build_all_resolved_scheme_counterexample :
    (build_all "p" "p" "b" "u/r").map (fun m => m.map Prod.fst)
      = .ok ["p-p-git-repo", "p-p-configured", "p-p-built", "p-p-installed"]
    ∧ spec_stage_tags "p" "p"
      = ["p-git-repo", "p-configured", "p-built", "p-installed"]
    ∧ ((["p-p-git-repo", "p-p-configured", "p-p-built", "p-p-installed"]
        : List String)
       == spec_stage_tags "p" "p") = false := by
  refine ⟨rfl, by decide, by decide⟩

/-- Claim C7 (amended): `build_all` with a repo argument and no copy path
produces exactly 4 images — source (git-repo), configured, built and
installed — keyed `"<prefix>-<tag>-<suffix>"` with the global prefix
prepended unconditionally to the given root tag; each image's resolved tag
equals its map key and each stage is built from the previous stage's
produced tag as its base; and whenever the root tag does not already start
with the prefix, the keys coincide with the scheme derived from the
prefix-resolved root tag. -/
theorem build_all_four_stages (pfx tag base repo : String)
    (h : (github_repo_match repo).isSome = true) :
    build_all pfx tag base repo
      = .ok [(pfx ++ "-" ++ tag ++ "-git-repo",
              ⟨pfx ++ "-" ++ tag ++ "-git-repo", base⟩),
             (pfx ++ "-" ++ tag ++ "-configured",
              ⟨pfx ++ "-" ++ tag ++ "-configured",
               pfx ++ "-" ++ tag ++ "-git-repo"⟩),
             (pfx ++ "-" ++ tag ++ "-built",
              ⟨pfx ++ "-" ++ tag ++ "-built",
               pfx ++ "-" ++ tag ++ "-configured"⟩),
             (pfx ++ "-" ++ tag ++ "-installed",
              ⟨pfx ++ "-" ++ tag ++ "-installed",
               pfx ++ "-" ++ tag ++ "-built"⟩)]
    ∧ (strStartsWith tag pfx = false →
       [pfx ++ "-" ++ tag ++ "-git-repo", pfx ++ "-" ++ tag ++ "-configured",
        pfx ++ "-" ++ tag ++ "-built", pfx ++ "-" ++ tag ++ "-installed"]
         = spec_stage_tags pfx tag) := by
  have hres : ∀ y : String, resolve_tag pfx (pfx ++ "-" ++ tag ++ y)
      = pfx ++ "-" ++ tag ++ y := by
    intro y
    have e1 : pfx ++ "-" ++ tag ++ y = pfx ++ ("-" ++ tag ++ y) := by
      simp [String.append_assoc]
    rw [e1, resolve_tag_append]
  constructor
  · cases hm : github_repo_match repo with
    | none => rw [hm] at h; exact Bool.noConfusion h
    | some n =>
      simp only [build_all, clone, hm, build_stage, hres]
  · intro hns
    unfold spec_stage_tags resolve_tag
    rw [hns]
    simp [String.append_assoc]

/-- Witness for claim C7: prefix `"p"`, root tag `"t"`, base `"b"` and the
well-formed repo name `"u/r"`. -/
theorem build_all_four_stages_witness :
    build_all "p" "t" "b" "u/r"
      = .ok [("p-t-git-repo", ⟨"p-t-git-repo", "b"⟩),
             ("p-t-configured", ⟨"p-t-configured", "p-t-git-repo"⟩),
             ("p-t-built", ⟨"p-t-built", "p-t-configured"⟩),
             ("p-t-installed", ⟨"p-t-installed", "p-t-built"⟩)]
    ∧ (["p-t-git-repo", "p-t-configured", "p-t-built", "p-t-installed"]
        : List String) = spec_stage_tags "p" "t" := by
  have h := build_all_four_stages "p" "t" "b" "u/r" (by decide)
  constructor
  · rw [h.1]
    rfl
  · have h2 := h.2 (by decide)
    simpa using h2
